import Mathlib

/-!
Shallow embedding of the gurgle dice-expression compiler and evaluator
(src/expr.rs, src/config.rs, src/checker.rs, src/roll.rs, src/tree.rs,
src/error.rs) together with theorems settling the spec claims.

Machine-integer conventions used throughout:
* `u64` values are embedded as `Nat`; where the Rust code can wrap
  (release-mode `+` on counters, `iter().sum::<u64>()`) the embedding takes
  the result `% 2^64` explicitly.
* `i64` values are embedded as `Int`; an `as u64` cast is embedded as the
  two's-complement reinterpretation `fun x => (x % 2^64).toNat`, and
  `i64::abs` with its release-mode wrapping semantics (`abs i64::MIN =
  i64::MIN`).
* Fallible Rust code is embedded into the result type `Res`:
  `Res.err` for a returned `CompileError`, `Res.panicked` for an `unwrap`
  of `None`/`Err` (a Rust panic).
-/

namespace Gurgle

/-- Modulus of the `u64` machine type. -/
def U64MOD : Nat := 2 ^ 64

/-- Embedding of the Rust cast `x as u64` for `x : i64`: two's-complement
reinterpretation. -/
def i64ToU64 (x : Int) : Nat := (x % (2 ^ 64 : Int)).toNat

/-- Embedding of `i64::abs` with release-mode (wrapping) overflow semantics:
`abs i64::MIN = i64::MIN`, otherwise the mathematical absolute value. -/
def wrapAbsI64 (x : Int) : Int :=
  if x = -(2 ^ 63) then x else (x.natAbs : Int)

/-- Embedding of the Rust cast `n as i64` for `n : u64`: two's-complement
reinterpretation. -/
def u64ToI64 (n : Nat) : Int :=
  if n < 2 ^ 63 then (n : Int) else (n : Int) - 2 ^ 64

/-- Wrapping of a mathematical integer into the `i64` range, the
release-mode behaviour of `+`, `-`, `*` on `i64`. -/
def wrap64 (x : Int) : Int := (x + 2 ^ 63) % 2 ^ 64 - 2 ^ 63

/-- Compile errors, from src/error.rs (`CompileError`). -/
inductive CompileError where
  | InvalidSyntax : String → CompileError
  | ParseNumberError : CompileError
  | DiceRollOrSidedNegative : CompileError
  | DiceRollTimesLimitExceeded : CompileError
  | DiceSidedCountLimitExceeded : CompileError
  | ItemCountLimitExceeded : CompileError
  | NumberItemOutOfRange : CompileError
deriving Repr, DecidableEq

/-- Result of running a fallible piece of the Rust code: a value, a
returned `CompileError`, or a panic (`unwrap` of `None`/`Err`). -/
inductive Res (α : Type) where
  | ok : α → Res α
  | err : CompileError → Res α
  | panicked : Res α
deriving Repr, DecidableEq

/-- Limits configuration, from src/config.rs (`Config`). All fields are
`u64` in the source. -/
structure Config where
  max_item_count : Nat
  max_dice_sides : Nat
  max_roll_times : Nat
  max_number_item_value : Nat
deriving Repr, DecidableEq

/-- Default configuration, from src/config.rs (`Config::default`). -/
def Config.default : Config :=
  { max_item_count := 20
    max_dice_sides := 1000
    max_roll_times := 100
    max_number_item_value := 65536 }

/-- Post-processing action after a round of dice rolls, from src/expr.rs
(`PostProcessor`). -/
inductive PostProcessor where
  | Sum : PostProcessor
  | Avg : PostProcessor
  | Max : PostProcessor
  | Min : PostProcessor
deriving Repr, DecidableEq

/-- Embedding of `PostProcessor::from_str` (src/expr.rs lines 36-50):
ASCII-lowercases the input and matches the four keywords. -/
def PostProcessor.fromStr (s : String) : Option PostProcessor :=
  match s.toLower with
  | "sum" => some PostProcessor.Sum
  | "avg" => some PostProcessor.Avg
  | "max" => some PostProcessor.Max
  | "min" => some PostProcessor.Min
  | _ => none

/-- Operator in a gurgle expression. src/expr.rs lines 192-198 declare only
`Add` and `Minus`; src/roll.rs line 136 additionally matches
`Operator::Multiply`, so the embedding carries the superset. `Operator.fromStr`
below embeds the `FromStr` impl of src/expr.rs, which accepts only `+` and
`-`; the syntax-tree builder can therefore never produce `Multiply`. -/
inductive Operator where
  | Add : Operator
  | Minus : Operator
  | Multiply : Operator
deriving Repr, DecidableEq

/-- Embedding of `Operator::from_str` (src/expr.rs lines 200-212): only
`+` and `-` are accepted. -/
def Operator.fromStr (s : String) : Option Operator :=
  match s with
  | "+" => some Operator.Add
  | "-" => some Operator.Minus
  | _ => none

/-- Rule of a round of dice rolls, from src/expr.rs (`Dice`). `times` and
`sided` are `u64` in the source. -/
structure Dice where
  times : Nat
  sided : Nat
  pp : PostProcessor
deriving Repr, DecidableEq

/-- Item in a gurgle expression, from src/expr.rs (`Item`): a number or a
dice. -/
inductive Item where
  | Number : Int → Item
  | Dice : Dice → Item
deriving Repr, DecidableEq

/-- Embedding of `Item::is_dice` (src/expr.rs lines 166-170). -/
def Item.isDice : Item → Bool
  | Item.Dice _ => true
  | Item.Number _ => false

/-- Roll times carried by an item: the `times` field bound by the
`if let Item::Dice(Dice { times, .. })` pattern in src/expr.rs line 241
(`0` for a number item, whose branch never reads it). -/
def Item.diceTimes : Item → Nat
  | Item.Dice d => d.times
  | Item.Number _ => 0

/-- Parsed content of a `Rule::item` pair as consumed by
`Item::from_pair`: a number literal or a dice spec. The integer payloads
stand for the results of the successful `parse::<i64>()` calls; the
optional string is the raw post-processor keyword. -/
inductive ItemTok where
  | number : Int → ItemTok
  | dice : Int → Int → Option String → ItemTok
deriving Repr, DecidableEq

/-- One pair in the token sequence that `AstTreeNode::from_pair` iterates
over (src/expr.rs line 233): an item pair, an operator pair, or any other
rule (skipped by the `_ => {}` arm). -/
inductive Token where
  | item : ItemTok → Token
  | operator : String → Token
  | other : Token
deriving Repr, DecidableEq

/-- Embedding of `Dice::from_pair` (src/expr.rs lines 85-109): sign check
on the signed values, roll-times limit, sides limit, then the optional
post-processor keyword (whose failed parse `unwrap`s, i.e. panics);
finally the `as u64` casts. -/
def Dice.fromPair (cfg : Config) (times sided : Int) (ppTok : Option String) :
    Res Dice :=
  if times ≤ 0 ∨ sided ≤ 0 then Res.err CompileError.DiceRollOrSidedNegative
  else if cfg.max_roll_times < i64ToU64 times then
    Res.err CompileError.DiceRollTimesLimitExceeded
  else if cfg.max_dice_sides < i64ToU64 sided then
    Res.err CompileError.DiceSidedCountLimitExceeded
  else
    match ppTok with
    | none => Res.ok ⟨i64ToU64 times, i64ToU64 sided, PostProcessor.Sum⟩
    | some s =>
        match PostProcessor.fromStr s with
        | some pp => Res.ok ⟨i64ToU64 times, i64ToU64 sided, pp⟩
        | none => Res.panicked

/-- Embedding of `Item::from_pair` (src/expr.rs lines 131-149): a number
literal is range-checked via `x.abs() as u64 > max_number_item_value`; a
dice spec defers to `Dice::from_pair`. -/
def Item.fromPair (cfg : Config) (tok : ItemTok) : Res Item :=
  match tok with
  | ItemTok.number x =>
      if cfg.max_number_item_value < i64ToU64 (wrapAbsI64 x) then
        Res.err CompileError.NumberItemOutOfRange
      else Res.ok (Item.Number x)
  | ItemTok.dice t s ppTok =>
      match Dice.fromPair cfg t s ppTok with
      | Res.ok d => Res.ok (Item.Dice d)
      | Res.err e => Res.err e
      | Res.panicked => Res.panicked

/-- Abstract syntax tree node, from src/expr.rs (`AstTreeNode`) and
src/tree.rs (`BinaryTreeNode`): the generic
`BinaryTree`/`BinaryTreeNode` pair is specialised and flattened, a
`Tree` node carrying the `left`, `mid`, `right` fields of `BinaryTree`. -/
inductive AstTreeNode where
  | Leaf : Item → AstTreeNode
  | Tree : AstTreeNode → Operator → AstTreeNode → AstTreeNode
deriving Repr, DecidableEq

/-- Embedding of `BinaryTreeNode::is_leaf` (src/tree.rs lines 41-45) at
the `AstTreeNode` instance. -/
def AstTreeNode.isLeaf : AstTreeNode → Bool
  | AstTreeNode.Leaf _ => true
  | AstTreeNode.Tree _ _ _ => false

/-- Loop body of `AstTreeNode::from_pair` (src/expr.rs lines 227-266),
with the mutable state made explicit: the `expr` accumulator, the pending
`op`, and the local `times_sum` / `item_count` counters (both `u64`,
hence the explicit wraps). -/
def fromPairGo (cfg : Config) :
    List Token → Option AstTreeNode → Option Operator → Nat → Nat →
    Res AstTreeNode
  | [], acc, _, _, _ =>
      (match acc with
       | some e => Res.ok e
       | none => Res.panicked)
  | Token.operator s :: rest, acc, _op, ts, ic =>
      (match Operator.fromStr s with
       | some o => fromPairGo cfg rest acc (some o) ts ic
       | none => Res.panicked)
  | Token.other :: rest, acc, op, ts, ic => fromPairGo cfg rest acc op ts ic
  | Token.item tok :: rest, acc, op, ts, ic =>
      (match Item.fromPair cfg tok with
       | Res.err e => Res.err e
       | Res.panicked => Res.panicked
       | Res.ok item =>
           let ic' := (ic + 1) % U64MOD
           if cfg.max_item_count < ic' then
             Res.err CompileError.ItemCountLimitExceeded
           else
             let ts' := if item.isDice then (ts + item.diceTimes) % U64MOD else ts
             if item.isDice ∧ cfg.max_roll_times < ts' then
               Res.err CompileError.DiceRollTimesLimitExceeded
             else
               match acc with
               | none => fromPairGo cfg rest (some (AstTreeNode.Leaf item)) op ts' ic'
               | some e =>
                   match op with
                   | some o =>
                       fromPairGo cfg rest
                         (some (AstTreeNode.Tree e o (AstTreeNode.Leaf item)))
                         none ts' ic'
                   | none => Res.panicked)

/-- Embedding of `AstTreeNode::from_pair` (src/expr.rs lines 227-266) on a
parsed token sequence: state starts empty, counters at zero. -/
def AstTreeNode.fromPair (cfg : Config) (toks : List Token) : Res AstTreeNode :=
  fromPairGo cfg toks none none 0 0

/-- Comparison operator of a checker, from src/checker.rs (`Compare`). -/
inductive Compare where
  | Gte : Compare
  | Gt : Compare
  | Lte : Compare
  | Lt : Compare
  | Eq : Compare
deriving Repr, DecidableEq

/-- Embedding of `Compare::from_str` (src/checker.rs lines 30-45). -/
def Compare.fromStr (s : String) : Option Compare :=
  match s with
  | ">=" => some Compare.Gte
  | ">" => some Compare.Gt
  | "<=" => some Compare.Lte
  | "<" => some Compare.Lt
  | "=" => some Compare.Eq
  | "==" => some Compare.Eq
  | _ => none

/-- Success checker of a gurgle command, from src/checker.rs (`Checker`). -/
structure Checker where
  compare : Compare
  target : Int
deriving Repr, DecidableEq

/-- Embedding of `Checker::check` (src/checker.rs lines 84-96): the
three-way `result.cmp(&self.target)` match, arm for arm. -/
def Checker.check (c : Checker) (result : Int) : Bool :=
  if c.target < result then
    match c.compare with
    | Compare.Gte => true
    | Compare.Gt => true
    | _ => false
  else if result < c.target then
    match c.compare with
    | Compare.Lte => true
    | Compare.Lt => true
    | _ => false
  else
    match c.compare with
    | Compare.Gte => true
    | Compare.Lte => true
    | Compare.Eq => true
    | _ => false

/-- Embedding of `Checker::from_pair` (src/checker.rs lines 68-80): the
compare symbol is parsed with `unwrap` (panic on failure), the target is
range-checked via `target.abs() as u64 > max_number_item_value`. -/
def Checker.fromPair (cfg : Config) (cmpTok : String) (target : Int) :
    Res Checker :=
  match Compare.fromStr cmpTok with
  | none => Res.panicked
  | some cmp =>
      if cfg.max_number_item_value < i64ToU64 (wrapAbsI64 target) then
        Res.err CompileError.NumberItemOutOfRange
      else Res.ok ⟨cmp, target⟩

/-- Embedding of `GurgleRoll::success` (src/roll.rs lines 198-200) with
the memoized `self.value()` supplied as an argument:
`self.checker.map(|c| c.check(self.value()))`. -/
def successOf (checker : Option Checker) (value : Int) : Option Bool :=
  checker.map fun c => c.check value

/-- Rolling result of a gurgle dice, from src/roll.rs (`DiceRoll`), with
the write-once cache slot dropped (the memoization layer is modelled
separately by `cacheIt`). -/
structure DiceRoll where
  points : List Nat
  pp : PostProcessor
deriving Repr, DecidableEq

/-- Embedding of `DiceRoll::calculate_value` (src/roll.rs lines 86-93),
with each Rust panic made explicit as `none`: the `u64` sum wraps;
`Avg` divides the wrapped sum by the point count (`u64` division by zero
panics); `Max`/`Min` `unwrap` the iterator maximum/minimum (panic when
the point list is empty). -/
def DiceRoll.calculateValue? (r : DiceRoll) : Option Nat :=
  match r.pp with
  | PostProcessor.Sum => some (r.points.sum % U64MOD)
  | PostProcessor.Avg =>
      if r.points.length = 0 then none
      else some (r.points.sum % U64MOD / r.points.length)
  | PostProcessor.Max => r.points.max?
  | PostProcessor.Min => r.points.min?

/-- Contract of `nanorand::tls_rng().generate_range(lo..=hi)` (the
randomness source is the external `nanorand` crate; its inclusive-range
contract is modelled by reducing an arbitrary entropy value into
`[lo, hi]`). -/
def genRange (entropy lo hi : Nat) : Nat := lo + entropy % (hi + 1 - lo)

/-- Embedding of `Dice::roll` (src/expr.rs lines 113-118):
`(0..times).map(|_| generate_range(1..=sided)).collect()`, the entropy
source made explicit as a function of the draw index. -/
def Dice.roll (d : Dice) (rng : Nat → Nat) : DiceRoll :=
  { points := (List.range d.times).map fun i => genRange (rng i) 1 d.sided
    pp := d.pp }

mutual
/-- Rolling result of an expression item, from src/roll.rs (`ItemRoll`):
a dice roll, a plain number, or a parenthesized sub-result. -/
inductive ItemRoll where
  | Dice : DiceRoll → ItemRoll
  | Number : Int → ItemRoll
  | Parentheses : RollTreeNode → ItemRoll

/-- Rolling result tree node, from src/roll.rs (`RollTreeNode`) and
src/tree.rs: specialised and flattened like `AstTreeNode`, with the
per-node `AtomicPtr` cache slot dropped (the memoization layer is
modelled separately by `cacheIt`). -/
inductive RollTreeNode where
  | Leaf : ItemRoll → RollTreeNode
  | Tree : RollTreeNode → Operator → RollTreeNode → RollTreeNode
end

/-- Embedding of the operator match inside `RollTree::calculate_value`
(src/roll.rs lines 132-138), the `i64` arithmetic wrapping made
explicit. -/
def Operator.apply (op : Operator) (a b : Int) : Int :=
  match op with
  | Operator.Add => wrap64 (a + b)
  | Operator.Minus => wrap64 (a - b)
  | Operator.Multiply => wrap64 (a * b)

mutual
/-- Embedding of `ItemRoll::value` (src/roll.rs lines 115-126), with the
dice value's possible panics surfaced as `none` and the `as i64` cast
made explicit. -/
def ItemRoll.value? : ItemRoll → Option Int
  | ItemRoll.Dice d => (DiceRoll.calculateValue? d).map u64ToI64
  | ItemRoll.Number x => some x
  | ItemRoll.Parentheses e => RollTreeNode.value? e

/-- Embedding of `RollTreeNode::value` / `RollTree::calculate_value`
(src/roll.rs lines 131-158): a leaf reads its item value, an inner node
combines the values of its children with its operator. -/
def RollTreeNode.value? : RollTreeNode → Option Int
  | RollTreeNode.Leaf l => ItemRoll.value? l
  | RollTreeNode.Tree l op r =>
      match RollTreeNode.value? l, RollTreeNode.value? r with
      | some a, some b => some (op.apply a b)
      | _, _ => none
end

/-- Embedding of `Item::roll` (src/expr.rs lines 153-158). -/
def Item.roll (rng : Nat → Nat) : Item → ItemRoll
  | Item.Dice d => ItemRoll.Dice (d.roll rng)
  | Item.Number x => ItemRoll.Number x

/-- Embedding of `AstTreeNode::roll` / `AstTree::roll` (src/expr.rs lines
217-221 and 268-273), the entropy source made explicit. -/
def AstTreeNode.roll (rng : Nat → Nat) : AstTreeNode → RollTreeNode
  | AstTreeNode.Leaf item => RollTreeNode.Leaf (item.roll rng)
  | AstTreeNode.Tree l op r =>
      RollTreeNode.Tree (l.roll rng) op (r.roll rng)

/-- Sequential semantics of the write-once cache `cache_it` (src/roll.rs
lines 13-44): a null slot computes the value once and stores it; a
filled slot returns the stored value without invoking the computation.
The slot is the `Option`-valued state, threaded explicitly. -/
def cacheIt (cache : Option Int) (f : Unit → Int) : Int × Option Int :=
  match cache with
  | none => let v := f (); (v, some v)
  | some x => (x, some x)

/-- Limit tracker, from src/config.rs (`Limit`): the two running `u64`
counters of one compilation pass. The borrowed `Config` is passed to
each method explicitly. -/
structure Limit where
  itemCount : Nat
  rollTimes : Nat
deriving Repr, DecidableEq

/-- Embedding of `Limit::new` (src/config.rs lines 85-91). -/
def Limit.new : Limit := ⟨0, 0⟩

/-- Embedding of `Limit::inc_item_count` / `Limit::check_item_count`
(src/config.rs lines 93-96 and 126-132): increment first (wrapping
`u64` addition), then fail iff the new count exceeds the limit. -/
def Limit.incItemCount (cfg : Config) (l : Limit) : Res Limit :=
  let l' : Limit := { l with itemCount := (l.itemCount + 1) % U64MOD }
  if cfg.max_item_count < l'.itemCount then
    Res.err CompileError.ItemCountLimitExceeded
  else Res.ok l'

/-- Embedding of `Limit::inc_roll_times` / `Limit::check_roll_times`
(src/config.rs lines 98-101 and 134-140): accumulate first (wrapping
`u64` addition), then fail iff the running sum exceeds the limit. -/
def Limit.incRollTimes (cfg : Config) (l : Limit) (times : Nat) : Res Limit :=
  let l' : Limit := { l with rollTimes := (l.rollTimes + times) % U64MOD }
  if cfg.max_roll_times < l'.rollTimes then
    Res.err CompileError.DiceRollTimesLimitExceeded
  else Res.ok l'

/-- Embedding of `Limit::check_number_item` (src/config.rs lines
103-108): `num.abs() as u64 > max_number_item_value`. -/
def Limit.checkNumberItem (cfg : Config) (num : Int) : Res Unit :=
  if cfg.max_number_item_value < i64ToU64 (wrapAbsI64 num) then
    Res.err CompileError.NumberItemOutOfRange
  else Res.ok ()

/-- Embedding of `Limit::check_dice` (src/config.rs lines 110-124): the
sign check on the signed values, then the roll-times limit, then the
sides limit, the `as u64` casts only after the sign check. -/
def Limit.checkDice (cfg : Config) (times sided : Int) : Res Unit :=
  if times ≤ 0 ∨ sided ≤ 0 then Res.err CompileError.DiceRollOrSidedNegative
  else if cfg.max_roll_times < i64ToU64 times then
    Res.err CompileError.DiceRollTimesLimitExceeded
  else if cfg.max_dice_sides < i64ToU64 sided then
    Res.err CompileError.DiceSidedCountLimitExceeded
  else Res.ok ()

mutual
/-- Parsed item pair of the limit-threading builder revision: number,
dice (parsed integers plus post-processor), or a parenthesized inner
token sequence. -/
inductive PItemTok where
  | number : Int → PItemTok
  | dice : Int → Int → PostProcessor → PItemTok
  | paren : PToks → PItemTok

/-- Token of the limit-threading builder revision: an item pair or an
(already parsed) operator pair. -/
inductive PTok where
  | item : PItemTok → PTok
  | op : Operator → PTok

/-- Token sequence of the limit-threading builder revision. -/
inductive PToks where
  | nil : PToks
  | cons : PTok → PToks → PToks
end

mutual
/-- Item of the AST built by the limit-threading builder revision:
number, dice, or parenthesized sub-expression. -/
inductive PItem where
  | number : Int → PItem
  | dice : Dice → PItem
  | paren : PAst → PItem

/-- AST node of the limit-threading builder revision. -/
inductive PAst where
  | leaf : PItem → PAst
  | tree : PAst → Operator → PAst → PAst
end

deriving instance DecidableEq for PItem, PAst

mutual
/-- Modelled from the spec: the limit-threading revision of the
syntax-tree builder is not under src/ (src/expr.rs is an older revision
whose `from_pair` takes `&Config`, keeps local counters and has no
parenthesized items, while src/lib.rs passes `&mut limit` and
src/roll.rs consumes `ItemRoll::Parentheses`). Per spec section 4.2, an
item pair is handled as follows, threading one shared `Limit` tracker
(whose methods are embedded faithfully from src/config.rs): a plain
number is magnitude-validated and counted; a dice spec is validated via
`check_dice`, counted, and its roll times accumulated; a parenthesized
sub-expression recursively invokes the builder on the inner token
sequence with the same tracker. -/
def buildItem (cfg : Config) (lim : Limit) :
    PItemTok → Res (PItem × Limit)
  | PItemTok.number x =>
      (match Limit.checkNumberItem cfg x with
       | Res.err e => Res.err e
       | Res.panicked => Res.panicked
       | Res.ok _ =>
           match Limit.incItemCount cfg lim with
           | Res.err e => Res.err e
           | Res.panicked => Res.panicked
           | Res.ok lim' => Res.ok (PItem.number x, lim'))
  | PItemTok.dice t s pp =>
      (match Limit.checkDice cfg t s with
       | Res.err e => Res.err e
       | Res.panicked => Res.panicked
       | Res.ok _ =>
           match Limit.incItemCount cfg lim with
           | Res.err e => Res.err e
           | Res.panicked => Res.panicked
           | Res.ok lim' =>
               match Limit.incRollTimes cfg lim' (i64ToU64 t) with
               | Res.err e => Res.err e
               | Res.panicked => Res.panicked
               | Res.ok lim'' =>
                   Res.ok (PItem.dice ⟨i64ToU64 t, i64ToU64 s, pp⟩, lim''))
  | PItemTok.paren toks =>
      (match buildToks cfg toks none none lim with
       | Res.err e => Res.err e
       | Res.panicked => Res.panicked
       | Res.ok pair => Res.ok (PItem.paren pair.1, pair.2))

/-- Modelled from the spec (see `buildItem`): the builder walk over one
token sequence, folding items into the accumulator as in
`AstTreeNode::from_pair` and threading the shared `Limit` tracker. -/
def buildToks (cfg : Config) :
    PToks → Option PAst → Option Operator → Limit → Res (PAst × Limit)
  | PToks.nil, acc, _, lim =>
      (match acc with
       | some e => Res.ok (e, lim)
       | none => Res.panicked)
  | PToks.cons (PTok.op o) rest, acc, _, lim =>
      buildToks cfg rest acc (some o) lim
  | PToks.cons (PTok.item tok) rest, acc, op, lim =>
      (match buildItem cfg lim tok with
       | Res.err e => Res.err e
       | Res.panicked => Res.panicked
       | Res.ok (item, lim') =>
           match acc with
           | none => buildToks cfg rest (some (PAst.leaf item)) op lim'
           | some e =>
               match op with
               | some o =>
                   buildToks cfg rest
                     (some (PAst.tree e o (PAst.leaf item))) none lim'
               | none => Res.panicked)
end

mutual
/-- Total roll times carried by one token sequence: the sum, over every
dice item at every nesting depth, of its (cast) times value. -/
def PToks.totalTimes : PToks → Nat
  | PToks.nil => 0
  | PToks.cons (PTok.item it) rest => it.totalTimes + rest.totalTimes
  | PToks.cons (PTok.op _) rest => rest.totalTimes

/-- Total roll times carried by one item pair. -/
def PItemTok.totalTimes : PItemTok → Nat
  | PItemTok.number _ => 0
  | PItemTok.dice t _ _ => i64ToU64 t
  | PItemTok.paren toks => toks.totalTimes
end

mutual
/-- Total number of counted items in one token sequence: every number
and dice item at every nesting depth (a parenthesized wrapper itself is
not counted). -/
def PToks.totalItems : PToks → Nat
  | PToks.nil => 0
  | PToks.cons (PTok.item it) rest => it.totalItems + rest.totalItems
  | PToks.cons (PTok.op _) rest => rest.totalItems

/-- Total number of counted items in one item pair. -/
def PItemTok.totalItems : PItemTok → Nat
  | PItemTok.number _ => 1
  | PItemTok.dice _ _ _ => 1
  | PItemTok.paren toks => toks.totalItems
end

/-- Left-leaning shape of a syntax tree: the right child of every inner
node is a leaf (stated with `isLeaf` from src/tree.rs), so inner nodes
occur only along the leftmost spine. -/
def AstTreeNode.leftLeaningB : AstTreeNode → Bool
  | AstTreeNode.Leaf _ => true
  | AstTreeNode.Tree l _ r => r.isLeaf && l.leftLeaningB

/-- Compile-time guarantee on a dice: at least one roll. -/
def Dice.wfb (d : Dice) : Bool := decide (1 ≤ d.times)

/-- Compile-time guarantee on an item. -/
def Item.wfb : Item → Bool
  | Item.Number _ => true
  | Item.Dice d => d.wfb

/-- Compile-time guarantee on a syntax tree: every dice in it rolls at
least once. -/
def AstTreeNode.wfb : AstTreeNode → Bool
  | AstTreeNode.Leaf it => it.wfb
  | AstTreeNode.Tree l _ r => l.wfb && r.wfb

/-- Wellformedness of an item pair's integer payloads: the results of a
successful `parse::<i64>()` always lie in the `i64` range. -/
def ItemTok.i64b : ItemTok → Bool
  | ItemTok.number x => decide (-(2 ^ 63) ≤ x ∧ x < 2 ^ 63)
  | ItemTok.dice t s _ =>
      decide ((-(2 ^ 63) ≤ t ∧ t < 2 ^ 63) ∧ (-(2 ^ 63) ≤ s ∧ s < 2 ^ 63))

/-- Wellformedness of a token's integer payloads. -/
def Token.i64b : Token → Bool
  | Token.item it => it.i64b
  | Token.operator _ => true
  | Token.other => true

/-- Token sequence of the input `1+2*3` under the input grammar
(`expr := item ((op_add|op_sub|op_multiply) item)*`). -/
def toksOnePlusTwoTimesThree : List Token :=
  [Token.item (ItemTok.number 1), Token.operator "+",
   Token.item (ItemTok.number 2), Token.operator "*",
   Token.item (ItemTok.number 3)]

/-- Token sequence of the input `1d2`. -/
def toksOneDTwo : List Token := [Token.item (ItemTok.dice 1 2 none)]

/-- Token sequence of the input `2d6+(3d6)` for the limit-threading
builder: a dice item, a plus, and a parenthesized dice item. -/
def pToksExample : PToks :=
  PToks.cons (PTok.item (PItemTok.dice 2 6 PostProcessor.Sum))
    (PToks.cons (PTok.op Operator.Add)
      (PToks.cons
        (PTok.item (PItemTok.paren
          (PToks.cons (PTok.item (PItemTok.dice 3 6 PostProcessor.Sum))
            PToks.nil)))
        PToks.nil))

/-- AST the limit-threading builder produces from `pToksExample`. -/
def pAstExample : PAst :=
  PAst.tree (PAst.leaf (PItem.dice ⟨2, 6, PostProcessor.Sum⟩)) Operator.Add
    (PAst.leaf (PItem.paren
      (PAst.leaf (PItem.dice ⟨3, 6, PostProcessor.Sum⟩))))

/-- Casting a non-negative `i64` below the modulus to `u64` is the
identity. -/
theorem i64ToU64_eq_toNat {x : Int} (h0 : 0 ≤ x) (h1 : x < 2 ^ 64) :
    i64ToU64 x = x.toNat := by
  unfold i64ToU64
  rw [Int.emod_eq_of_lt h0 h1]

/-- On the whole `i64` range, the composite `x.abs() as u64` of the
source (wrapping absolute value, then two's-complement cast) computes
the mathematical absolute value, including at `i64::MIN`. -/
theorem i64ToU64_wrapAbs {x : Int} (h1 : -(2 ^ 63) ≤ x) (h2 : x < 2 ^ 63) :
    i64ToU64 (wrapAbsI64 x) = x.natAbs := by
  unfold wrapAbsI64
  split_ifs with hmin
  · subst hmin; decide
  · have hlt : ((x.natAbs : Int)) % (2 ^ 64 : Int) = (x.natAbs : Int) := by
      apply Int.emod_eq_of_lt (by positivity)
      omega
    unfold i64ToU64
    rw [hlt]
    omega

/-- Claim C7: for every condition checker and every i64 result value,
`Checker::check` returns true exactly when the stored comparison of the
value against the target holds under standard integer ordering (Gte/Lte
inclusive, Gt/Lt exclusive, Eq exact equality), and `GurgleRoll::success`
returns `Some(check(value))` when a checker is present and `None` when
there is none. -/
theorem c7_checker_success_semantics (cmp : Compare) (t v : Int) :
    (Checker.check ⟨Compare.Gte, t⟩ v = true ↔ t ≤ v)
    ∧ (Checker.check ⟨Compare.Gt, t⟩ v = true ↔ t < v)
    ∧ (Checker.check ⟨Compare.Lte, t⟩ v = true ↔ v ≤ t)
    ∧ (Checker.check ⟨Compare.Lt, t⟩ v = true ↔ v < t)
    ∧ (Checker.check ⟨Compare.Eq, t⟩ v = true ↔ v = t)
    ∧ successOf (some ⟨cmp, t⟩) v = some (Checker.check ⟨cmp, t⟩ v)
    ∧ successOf none v = none := by
  refine ⟨?_, ?_, ?_, ?_, ?_, rfl, rfl⟩ <;>
    · unfold Checker.check
      dsimp only
      split_ifs <;> simp <;> omega

/-- Claim C9: for every i64 value accepted as a number item or checker
target, including i64::MIN, the number check fails with
`NumberOutOfRange` exactly when the mathematical absolute value exceeds
`max_number_item_value`, and otherwise the value is accepted unchanged
(as the `Item::Number` payload, respectively the checker target). -/
theorem c9_number_magnitude (cfg : Config) (x : Int)
    (h1 : -(2 ^ 63) ≤ x) (h2 : x < 2 ^ 63) :
    (Limit.checkNumberItem cfg x = Res.err CompileError.NumberItemOutOfRange
        ↔ cfg.max_number_item_value < x.natAbs)
    ∧ (Limit.checkNumberItem cfg x = Res.ok ()
        ↔ x.natAbs ≤ cfg.max_number_item_value)
    ∧ (x.natAbs ≤ cfg.max_number_item_value →
        Item.fromPair cfg (ItemTok.number x) = Res.ok (Item.Number x))
    ∧ (x.natAbs ≤ cfg.max_number_item_value →
        ∀ s c, Compare.fromStr s = some c →
          Checker.fromPair cfg s x = Res.ok ⟨c, x⟩) := by
  have key := i64ToU64_wrapAbs h1 h2
  refine ⟨?_, ?_, ?_, ?_⟩
  · unfold Limit.checkNumberItem
    rw [key]
    split_ifs with h <;> simp [h]
  · unfold Limit.checkNumberItem
    rw [key]
    split_ifs with h <;> simp <;> omega
  · intro hle
    unfold Item.fromPair
    dsimp only
    rw [key]
    split_ifs with h
    · omega
    · rfl
  · intro hle s c hc
    unfold Checker.fromPair
    rw [hc]
    dsimp only
    rw [key]
    split_ifs with h
    · omega
    · rfl

/-- Witness for C9 at the extreme input `i64::MIN` with a magnitude
limit of `2^63`: the check accepts it. -/
theorem c9_number_magnitude_witness :
    Limit.checkNumberItem ⟨20, 1000, 100, 2 ^ 63⟩ (-(2 ^ 63)) = Res.ok () :=
  ((c9_number_magnitude ⟨20, 1000, 100, 2 ^ 63⟩ (-(2 ^ 63))
      (by norm_num) (by norm_num)).2.1).mpr (by norm_num)

/-- Inversion of a successful `Dice::from_pair`: the sign checks and
both limit checks passed and the fields are the cast inputs. -/
theorem Dice.fromPair_ok {cfg : Config} {times sided : Int}
    {ppTok : Option String} {d : Dice}
    (h : Dice.fromPair cfg times sided ppTok = Res.ok d) :
    0 < times ∧ 0 < sided
    ∧ d.times = i64ToU64 times ∧ d.sided = i64ToU64 sided
    ∧ i64ToU64 times ≤ cfg.max_roll_times
    ∧ i64ToU64 sided ≤ cfg.max_dice_sides := by
  unfold Dice.fromPair at h
  split_ifs at h with hneg hroll hside
  have hd : d.times = i64ToU64 times ∧ d.sided = i64ToU64 sided := by
    cases ppTok with
    | none => cases h; exact ⟨rfl, rfl⟩
    | some s =>
        dsimp only at h
        cases hp : PostProcessor.fromStr s with
        | none => rw [hp] at h; cases h
        | some pp => rw [hp] at h; cases h; exact ⟨rfl, rfl⟩
  push_neg at hneg
  exact ⟨hneg.1, hneg.2, hd.1, hd.2, by omega, by omega⟩

/-- Claim C8: for every pair of parsed dice arguments, compilation fails
with `NonPositiveDiceSpec` if either value is nonpositive, decided on
the signed values before any cast; otherwise with `TooManyRollTimes` if
the roll count exceeds `max_roll_times`; otherwise with `TooManySides`
if the side count exceeds `max_dice_sides`; otherwise the dice is
accepted. Stated for `Dice::from_pair` (the compilation path of
src/expr.rs) and for `Limit::check_dice` (src/config.rs). -/
theorem c8_dice_check_order (cfg : Config) (times sided : Int)
    (ht : times < 2 ^ 63) (hs : sided < 2 ^ 63) :
    ((times ≤ 0 ∨ sided ≤ 0) → ∀ ppTok,
        Dice.fromPair cfg times sided ppTok
          = Res.err CompileError.DiceRollOrSidedNegative)
    ∧ (0 < times → 0 < sided → cfg.max_roll_times < times.toNat → ∀ ppTok,
        Dice.fromPair cfg times sided ppTok
          = Res.err CompileError.DiceRollTimesLimitExceeded)
    ∧ (0 < times → 0 < sided → times.toNat ≤ cfg.max_roll_times →
        cfg.max_dice_sides < sided.toNat → ∀ ppTok,
        Dice.fromPair cfg times sided ppTok
          = Res.err CompileError.DiceSidedCountLimitExceeded)
    ∧ (0 < times → 0 < sided → times.toNat ≤ cfg.max_roll_times →
        sided.toNat ≤ cfg.max_dice_sides →
        Dice.fromPair cfg times sided none
          = Res.ok ⟨times.toNat, sided.toNat, PostProcessor.Sum⟩)
    ∧ (Limit.checkDice cfg times sided = Res.ok ()
        ↔ 0 < times ∧ 0 < sided ∧ times.toNat ≤ cfg.max_roll_times
            ∧ sided.toNat ≤ cfg.max_dice_sides) := by
  have htt : 0 < times → i64ToU64 times = times.toNat := fun h =>
    i64ToU64_eq_toNat (by omega) (by omega)
  have hss : 0 < sided → i64ToU64 sided = sided.toNat := fun h =>
    i64ToU64_eq_toNat (by omega) (by omega)
  refine ⟨?_, ?_, ?_, ?_, ?_⟩
  · intro hneg ppTok
    unfold Dice.fromPair
    rw [if_pos hneg]
  · intro hpt hps hlim ppTok
    unfold Dice.fromPair
    rw [if_neg (by omega), if_pos (by rw [htt hpt]; omega)]
  · intro hpt hps hok hlim ppTok
    unfold Dice.fromPair
    rw [if_neg (by omega), if_neg (by rw [htt hpt]; omega),
      if_pos (by rw [hss hps]; omega)]
  · intro hpt hps hok1 hok2
    unfold Dice.fromPair
    rw [if_neg (by omega), if_neg (by rw [htt hpt]; omega),
      if_neg (by rw [hss hps]; omega), htt hpt, hss hps]
  · unfold Limit.checkDice
    split_ifs with hneg hroll hside
    · simp
      omega
    · simp
      intro hpt hps
      rw [htt hpt] at hroll
      omega
    · simp
      intro hpt hps hr
      rw [hss hps] at hside
      omega
    · simp
      push_neg at hneg
      rw [htt (by omega)] at hroll
      rw [hss (by omega)] at hside
      omega

/-- Witness for C8: under the default configuration the dice spec `3d6`
is accepted with the cast field values. -/
theorem c8_dice_check_order_witness :
    Dice.fromPair Config.default 3 6 none
      = Res.ok ⟨(3 : Int).toNat, (6 : Int).toNat, PostProcessor.Sum⟩ :=
  (c8_dice_check_order Config.default 3 6 (by norm_num) (by norm_num)).2.2.2.1
    (by norm_num) (by norm_num) (by decide) (by decide)

/-- Claim C6: for every compiled dice rule with `times = n` and
`sides = s`, a single call to `roll()` produces exactly `n` points, each
in the inclusive range `[1, s]` (the randomness source is modelled by
`genRange`, the inclusive-range contract of the external `nanorand`
generator). -/
theorem c6_roll_shape (cfg : Config) (times sided : Int)
    (ppTok : Option String) (d : Dice) (hs : sided < 2 ^ 63)
    (h : Dice.fromPair cfg times sided ppTok = Res.ok d) (rng : Nat → Nat) :
    (d.roll rng).points.length = d.times
    ∧ ∀ p ∈ (d.roll rng).points, 1 ≤ p ∧ p ≤ d.sided := by
  obtain ⟨hpt, hps, _, hds, -, -⟩ := Dice.fromPair_ok h
  have hsided : 1 ≤ d.sided := by
    rw [hds, i64ToU64_eq_toNat (by omega) (by omega)]
    omega
  constructor
  · simp [Dice.roll]
  · intro p hp
    simp only [Dice.roll, List.mem_map, List.mem_range] at hp
    obtain ⟨i, -, rfl⟩ := hp
    unfold genRange
    have hmod : rng i % (d.sided + 1 - 1) < d.sided := by
      have : d.sided + 1 - 1 = d.sided := by omega
      rw [this]
      exact Nat.mod_lt _ (by omega)
    omega

/-- Witness for C6: the compiled dice `2d6` rolled with a constant-zero
entropy source yields two points, both in `[1, 6]`. -/
theorem c6_roll_shape_witness :
    ((⟨2, 6, PostProcessor.Sum⟩ : Dice).roll (fun _ => 0)).points.length
        = (⟨2, 6, PostProcessor.Sum⟩ : Dice).times
    ∧ ∀ p ∈ ((⟨2, 6, PostProcessor.Sum⟩ : Dice).roll (fun _ => 0)).points,
        1 ≤ p ∧ p ≤ (⟨2, 6, PostProcessor.Sum⟩ : Dice).sided :=
  c6_roll_shape Config.default 2 6 none ⟨2, 6, PostProcessor.Sum⟩
    (by norm_num) (by decide) (fun _ => 0)

/-- Sum of a list bounded below by its length when every element is at
least one. -/
theorem length_le_sum {l : List Nat} (h : ∀ p ∈ l, 1 ≤ p) :
    l.length ≤ l.sum := by
  induction l with
  | nil => simp
  | cons a as ih =>
      simp only [List.length_cons, List.sum_cons]
      have ha := h a (by simp)
      have := ih fun p hp => h p (by simp [hp])
      omega

/-- Sum of a list bounded above by length times an elementwise bound. -/
theorem sum_le_length_mul {l : List Nat} {s : Nat} (h : ∀ p ∈ l, p ≤ s) :
    l.sum ≤ l.length * s := by
  induction l with
  | nil => simp
  | cons a as ih =>
      simp only [List.length_cons, List.sum_cons]
      have ha := h a (by simp)
      have := ih fun p hp => h p (by simp [hp])
      have : (as.length + 1) * s = as.length * s + s := by ring
      omega

/-- Claim C5: for every dice-roll result over a nonempty point list from
an s-sided dice, `calculate_value` reduces the stored points according
to the reduction mode: `Sum` yields the arithmetic sum (in `[n, n*s]`),
`Avg` the floor of sum over count (in `[1, s]`), `Max`/`Min` the
maximum/minimum point (in `[1, s]`). The cap hypothesis rules out `u64`
wraparound of the sum. -/
theorem c5_reduction_modes (points : List Nat) (s : Nat)
    (hne : points ≠ []) (hmem : ∀ p ∈ points, 1 ≤ p ∧ p ≤ s)
    (hcap : points.length * s < U64MOD) :
    (DiceRoll.calculateValue? ⟨points, PostProcessor.Sum⟩ = some points.sum
       ∧ points.length ≤ points.sum ∧ points.sum ≤ points.length * s)
    ∧ (DiceRoll.calculateValue? ⟨points, PostProcessor.Avg⟩
         = some (points.sum / points.length)
       ∧ 1 ≤ points.sum / points.length ∧ points.sum / points.length ≤ s)
    ∧ (∃ m, DiceRoll.calculateValue? ⟨points, PostProcessor.Max⟩ = some m
       ∧ m ∈ points ∧ 1 ≤ m ∧ m ≤ s)
    ∧ (∃ m, DiceRoll.calculateValue? ⟨points, PostProcessor.Min⟩ = some m
       ∧ m ∈ points ∧ 1 ≤ m ∧ m ≤ s) := by
  have hlen : 0 < points.length := List.length_pos.mpr hne
  have hlow : points.length ≤ points.sum := length_le_sum fun p hp => (hmem p hp).1
  have hhigh : points.sum ≤ points.length * s :=
    sum_le_length_mul fun p hp => (hmem p hp).2
  have hsum : points.sum % U64MOD = points.sum := Nat.mod_eq_of_lt (by omega)
  refine ⟨⟨?_, hlow, hhigh⟩, ⟨?_, ?_, ?_⟩, ?_, ?_⟩
  · unfold DiceRoll.calculateValue?
    dsimp only
    rw [hsum]
  · unfold DiceRoll.calculateValue?
    dsimp only
    rw [if_neg (by omega), hsum]
  · rw [Nat.one_le_div_iff hlen]
    exact hlow
  · calc points.sum / points.length ≤ points.length * s / points.length :=
          Nat.div_le_div_right hhigh
      _ = s := Nat.mul_div_cancel_left s hlen
  · obtain ⟨m, hm⟩ : ∃ m, points.max? = some m := by
      cases points with
      | nil => exact absurd rfl hne
      | cons a as => exact ⟨_, rfl⟩
    have hmem' : m ∈ points := List.max?_mem max_choice hm
    exact ⟨m, by simp [DiceRoll.calculateValue?, hm], hmem',
      (hmem m hmem').1, (hmem m hmem').2⟩
  · obtain ⟨m, hm⟩ : ∃ m, points.min? = some m := by
      cases points with
      | nil => exact absurd rfl hne
      | cons a as => exact ⟨_, rfl⟩
    have hmem' : m ∈ points := List.min?_mem min_choice hm
    exact ⟨m, by simp [DiceRoll.calculateValue?, hm], hmem',
      (hmem m hmem').1, (hmem m hmem').2⟩

/-- Witness for C5 on the concrete roll `[2, 5]` of a 6-sided dice. -/
theorem c5_reduction_modes_witness :
    DiceRoll.calculateValue? ⟨[2, 5], PostProcessor.Sum⟩ = some 7
    ∧ DiceRoll.calculateValue? ⟨[2, 5], PostProcessor.Avg⟩ = some 3 := by
  have h := c5_reduction_modes [2, 5] 6 (by decide) (by decide) (by decide)
  exact ⟨h.1.1, h.2.1.1⟩

/-- Claim C1 (evidence of the code bug): on the token stream of `1+2*3`
(grammar: item, op, item, op, item with `*` as the multiply operator),
the builder of src/expr.rs panics — `Operator::from_str("*")` returns
`Err` and is `unwrap`ped — because its `Operator` enum has no `Multiply`
variant; the input can therefore not compile, let alone evaluate to 7.
This contradicts src/lib.rs's own tests and docs (`100d1000*5`,
`(2d4+1)*2`) and src/roll.rs, which matches `Operator::Multiply`. -/
theorem c1_multiply_not_compilable :
    AstTreeNode.fromPair Config.default toksOnePlusTwoTimesThree
      = Res.panicked := by
  decide

/-- Left-leaning invariant of the builder loop: if the accumulator is
left-leaning, so is any tree the loop returns (every `Tree` node it
creates has the fresh leaf as its right child). -/
theorem fromPairGo_leftLeaning (cfg : Config) :
    ∀ (toks : List Token) (acc : Option AstTreeNode) (op : Option Operator)
      (ts ic : Nat) (t : AstTreeNode),
      (∀ e, acc = some e → e.leftLeaningB = true) →
      fromPairGo cfg toks acc op ts ic = Res.ok t → t.leftLeaningB = true := by
  intro toks
  induction toks with
  | nil =>
      intro acc op ts ic t hacc h
      cases acc with
      | none => simp [fromPairGo] at h
      | some e =>
          simp only [fromPairGo] at h
          cases h
          exact hacc _ rfl
  | cons tok rest ih =>
      intro acc op ts ic t hacc h
      cases tok with
      | other => exact ih acc op ts ic t hacc h
      | operator s =>
          simp only [fromPairGo] at h
          cases ho : Operator.fromStr s with
          | none => rw [ho] at h; cases h
          | some o => rw [ho] at h; exact ih acc (some o) ts ic t hacc h
      | item itok =>
          simp only [fromPairGo] at h
          cases hI : Item.fromPair cfg itok with
          | err e => rw [hI] at h; cases h
          | panicked => rw [hI] at h; cases h
          | ok item =>
              rw [hI] at h
              dsimp only at h
              split_ifs at h <;>
                (cases acc with
                 | none =>
                     refine ih _ _ _ _ t ?_ h
                     intro e he
                     cases he
                     rfl
                 | some e =>
                     cases op with
                     | none => cases h
                     | some o =>
                         refine ih _ _ _ _ t ?_ h
                         intro e' he'
                         cases he'
                         simp [AstTreeNode.leftLeaningB, AstTreeNode.isLeaf,
                           hacc e rfl])

/-- Claim C10: every syntax tree the builder of src/expr.rs produces
from one flat sequence of items and operators is left-leaning — the
right child of every inner node is a leaf, so inner nodes occur only
along the leftmost spine. -/
theorem c10_left_leaning (cfg : Config) (toks : List Token)
    (t : AstTreeNode) (h : AstTreeNode.fromPair cfg toks = Res.ok t) :
    t.leftLeaningB = true :=
  fromPairGo_leftLeaning cfg toks none none 0 0 t (fun _ he => by cases he) h

/-- Witness for C10: `1+2-3` builds the left-leaning tree
`(1+2)-3` and the invariant evaluates to true on it. -/
theorem c10_left_leaning_witness :
    AstTreeNode.fromPair Config.default
        [Token.item (ItemTok.number 1), Token.operator "+",
         Token.item (ItemTok.number 2), Token.operator "-",
         Token.item (ItemTok.number 3)]
      = Res.ok (AstTreeNode.Tree
          (AstTreeNode.Tree (AstTreeNode.Leaf (Item.Number 1)) Operator.Add
            (AstTreeNode.Leaf (Item.Number 2)))
          Operator.Minus (AstTreeNode.Leaf (Item.Number 3)))
    ∧ (AstTreeNode.Tree
          (AstTreeNode.Tree (AstTreeNode.Leaf (Item.Number 1)) Operator.Add
            (AstTreeNode.Leaf (Item.Number 2)))
          Operator.Minus (AstTreeNode.Leaf (Item.Number 3))).leftLeaningB
        = true :=
  ⟨by decide,
   c10_left_leaning Config.default
     [Token.item (ItemTok.number 1), Token.operator "+",
      Token.item (ItemTok.number 2), Token.operator "-",
      Token.item (ItemTok.number 3)]
     (AstTreeNode.Tree
       (AstTreeNode.Tree (AstTreeNode.Leaf (Item.Number 1)) Operator.Add
         (AstTreeNode.Leaf (Item.Number 2)))
       Operator.Minus (AstTreeNode.Leaf (Item.Number 3)))
     (by decide)⟩

/-- An item accepted by `Item::from_pair` from an in-range pair is
well-formed: any dice in it rolls at least once. -/
theorem Item.fromPair_wf {cfg : Config} {tok : ItemTok} {item : Item}
    (hi : tok.i64b = true) (h : Item.fromPair cfg tok = Res.ok item) :
    item.wfb = true := by
  cases tok with
  | number x =>
      unfold Item.fromPair at h
      dsimp only at h
      split_ifs at h
      cases h
      rfl
  | dice t s pp =>
      unfold Item.fromPair at h
      dsimp only at h
      cases hd : Dice.fromPair cfg t s pp with
      | err e => rw [hd] at h; cases h
      | panicked => rw [hd] at h; cases h
      | ok d =>
          rw [hd] at h
          cases h
          obtain ⟨hpt, -, hdt, -, -, -⟩ := Dice.fromPair_ok hd
          simp only [ItemTok.i64b, decide_eq_true_eq] at hi
          simp only [Item.wfb, Dice.wfb]
          rw [hdt, i64ToU64_eq_toNat (by omega) (by omega)]
          simp only [decide_eq_true_eq]
          omega

/-- Well-formedness invariant of the builder loop: a tree returned by
the loop from in-range tokens and a well-formed accumulator is
well-formed. -/
theorem fromPairGo_wf (cfg : Config) :
    ∀ (toks : List Token) (acc : Option AstTreeNode) (op : Option Operator)
      (ts ic : Nat) (t : AstTreeNode),
      (∀ tok ∈ toks, tok.i64b = true) →
      (∀ e, acc = some e → e.wfb = true) →
      fromPairGo cfg toks acc op ts ic = Res.ok t → t.wfb = true := by
  intro toks
  induction toks with
  | nil =>
      intro acc op ts ic t _ hacc h
      cases acc with
      | none => simp [fromPairGo] at h
      | some e =>
          simp only [fromPairGo] at h
          cases h
          exact hacc _ rfl
  | cons tok rest ih =>
      intro acc op ts ic t htoks hacc h
      have htoks' : ∀ tok ∈ rest, tok.i64b = true := fun tk hk =>
        htoks tk (by simp [hk])
      cases tok with
      | other => exact ih acc op ts ic t htoks' hacc h
      | operator s =>
          simp only [fromPairGo] at h
          cases ho : Operator.fromStr s with
          | none => rw [ho] at h; cases h
          | some o => rw [ho] at h; exact ih acc (some o) ts ic t htoks' hacc h
      | item itok =>
          have hwf : ∀ item, Item.fromPair cfg itok = Res.ok item →
              item.wfb = true := fun item hIt =>
            Item.fromPair_wf (htoks (Token.item itok) (by simp)) hIt
          simp only [fromPairGo] at h
          cases hI : Item.fromPair cfg itok with
          | err e => rw [hI] at h; cases h
          | panicked => rw [hI] at h; cases h
          | ok item =>
              rw [hI] at h
              dsimp only at h
              split_ifs at h <;>
                (cases acc with
                 | none =>
                     refine ih _ _ _ _ t htoks' ?_ h
                     intro e he
                     cases he
                     exact hwf item hI
                 | some e =>
                     cases op with
                     | none => cases h
                     | some o =>
                         refine ih _ _ _ _ t htoks' ?_ h
                         intro e' he'
                         cases he'
                         simp [AstTreeNode.wfb, hacc e rfl,
                           show Item.wfb item = true from hwf item hI])

/-- A dice roll over a nonempty point list always has a computable
value: none of the panic branches of `calculate_value` is reachable. -/
theorem calculateValue?_isSome {points : List Nat} {pp : PostProcessor}
    (h : points ≠ []) :
    ∃ n, DiceRoll.calculateValue? ⟨points, pp⟩ = some n := by
  cases pp with
  | Sum => exact ⟨_, rfl⟩
  | Avg =>
      exact ⟨points.sum % U64MOD / points.length, by
        unfold DiceRoll.calculateValue?
        dsimp only
        rw [if_neg (by simpa using h)]⟩
  | Max =>
      cases points with
      | nil => exact absurd rfl h
      | cons a as => exact ⟨_, rfl⟩
  | Min =>
      cases points with
      | nil => exact absurd rfl h
      | cons a as => exact ⟨_, rfl⟩

/-- Evaluation of the roll of a well-formed tree always produces a
value: the `unwrap`/division panic branches of the evaluator are
unreachable. -/
theorem roll_value_isSome {t : AstTreeNode} (hw : t.wfb = true)
    (rng : Nat → Nat) : ∃ v, (t.roll rng).value? = some v := by
  induction t with
  | Leaf it =>
      cases it with
      | Number x => exact ⟨x, rfl⟩
      | Dice d =>
          have hne : (d.roll rng).points ≠ [] := by
            have : (d.roll rng).points.length = d.times := by simp [Dice.roll]
            intro hnil
            rw [hnil] at this
            simp only [AstTreeNode.wfb, Item.wfb, Dice.wfb,
              decide_eq_true_eq] at hw
            simp at this
            omega
          have hr : d.roll rng = ⟨(d.roll rng).points, d.pp⟩ := rfl
          obtain ⟨n, hn⟩ := @calculateValue?_isSome (d.roll rng).points d.pp hne
          refine ⟨u64ToI64 n, ?_⟩
          simp only [AstTreeNode.roll, Item.roll, RollTreeNode.value?,
            ItemRoll.value?]
          rw [hr, hn]
          rfl
  | Tree l op r ihl ihr =>
      simp only [AstTreeNode.wfb, Bool.and_eq_true] at hw
      obtain ⟨a, ha⟩ := ihl hw.1
      obtain ⟨b, hb⟩ := ihr hw.2
      refine ⟨op.apply a b, ?_⟩
      simp only [AstTreeNode.roll, RollTreeNode.value?]
      rw [ha, hb]

/-- Claim C3: every successfully compiled expression evaluates without
any failure or panic — for every token stream with in-range integer
literals that the builder accepts and every entropy source, the
evaluator's Max/Min reduction never sees an empty point list and the Avg
division never divides by zero, so the whole evaluation yields a
value. -/
theorem c3_compiled_evaluates (cfg : Config) (toks : List Token)
    (t : AstTreeNode) (hi : ∀ tok ∈ toks, tok.i64b = true)
    (h : AstTreeNode.fromPair cfg toks = Res.ok t) (rng : Nat → Nat) :
    ∃ v, (t.roll rng).value? = some v :=
  roll_value_isSome
    (fromPairGo_wf cfg toks none none 0 0 t hi (fun _ he => by cases he) h) rng

/-- Witness for C3: the compiled `1d2` evaluates to a value under a
constant-zero entropy source. -/
theorem c3_compiled_evaluates_witness :
    ∃ v, ((AstTreeNode.Leaf (Item.Dice ⟨1, 2, PostProcessor.Sum⟩)).roll
        (fun _ => 0)).value? = some v :=
  c3_compiled_evaluates Config.default toksOneDTwo
    (AstTreeNode.Leaf (Item.Dice ⟨1, 2, PostProcessor.Sum⟩))
    (by decide) (by decide) (fun _ => 0)

/-- Claim C4: within one evaluated result tree each memoized value is
computed at most once and then reused — the first read through the
write-once cache fixes the value, a second read returns the identical
number and is independent of the (never invoked) recompute function —
while rolling the same compiled expression again produces a distinct
result tree that may hold a different number (shown on the compiled
`1d2` with two entropy sources). -/
theorem c4_memoization :
    (∀ f g : Unit → Int,
        (cacheIt (cacheIt none f).2 g).1 = (cacheIt none f).1)
    ∧ (∀ (v : Int) (g : Unit → Int), cacheIt (some v) g = (v, some v))
    ∧ (∃ t : AstTreeNode,
        AstTreeNode.fromPair Config.default toksOneDTwo = Res.ok t
        ∧ (t.roll fun _ => 0).value? ≠ (t.roll fun _ => 1).value?) := by
  refine ⟨fun f g => rfl, fun v g => rfl,
    ⟨AstTreeNode.Leaf (Item.Dice ⟨1, 2, PostProcessor.Sum⟩), by decide, ?_⟩⟩
  simp [AstTreeNode.roll, Item.roll, RollTreeNode.value?, ItemRoll.value?,
    Dice.roll, genRange, DiceRoll.calculateValue?, u64ToI64, U64MOD]

/-- Inversion of a successful `inc_item_count`: the count grew by one
and the new count is within the limit. -/
theorem Limit.incItemCount_ok {cfg : Config} {l l' : Limit}
    (hw : l.itemCount + 1 < U64MOD)
    (h : Limit.incItemCount cfg l = Res.ok l') :
    l'.itemCount = l.itemCount + 1 ∧ l'.rollTimes = l.rollTimes
    ∧ l.itemCount + 1 ≤ cfg.max_item_count := by
  unfold Limit.incItemCount at h
  dsimp only at h
  rw [Nat.mod_eq_of_lt hw] at h
  split_ifs at h with hgt
  cases h
  exact ⟨rfl, rfl, by omega⟩

/-- Inversion of a successful `inc_roll_times`: the running sum grew by
the accumulated times and stays within the limit. -/
theorem Limit.incRollTimes_ok {cfg : Config} {l l' : Limit} {n : Nat}
    (hw : l.rollTimes + n < U64MOD)
    (h : Limit.incRollTimes cfg l n = Res.ok l') :
    l'.rollTimes = l.rollTimes + n ∧ l'.itemCount = l.itemCount
    ∧ l.rollTimes + n ≤ cfg.max_roll_times := by
  unfold Limit.incRollTimes at h
  dsimp only at h
  rw [Nat.mod_eq_of_lt hw] at h
  split_ifs at h with hgt
  cases h
  exact ⟨rfl, rfl, by omega⟩

/-- A successful `check_dice` bounds the cast roll count by the
roll-times limit. -/
theorem Limit.checkDice_ok {cfg : Config} {times sided : Int}
    (h : Limit.checkDice cfg times sided = Res.ok ()) :
    i64ToU64 times ≤ cfg.max_roll_times := by
  unfold Limit.checkDice at h
  split_ifs at h with h1 h2 h3
  omega

mutual
/-- Counter accumulation through the builder walk over one token
sequence: on success, the shared tracker's two counters grow by exactly
the sequence's total dice times and total item count (nested
parenthesized sequences included), staying within the limits. -/
theorem buildToks_counts (cfg : Config)
    (hA : cfg.max_item_count + 1 < U64MOD)
    (hB : 2 * cfg.max_roll_times < U64MOD) (toks : PToks) :
    ∀ (acc : Option PAst) (op : Option Operator) (lim : Limit)
      (t : PAst) (lim' : Limit),
      lim.rollTimes ≤ cfg.max_roll_times →
      lim.itemCount ≤ cfg.max_item_count →
      buildToks cfg toks acc op lim = Res.ok (t, lim') →
      lim'.rollTimes = lim.rollTimes + toks.totalTimes
      ∧ lim'.itemCount = lim.itemCount + toks.totalItems
      ∧ lim'.rollTimes ≤ cfg.max_roll_times
      ∧ lim'.itemCount ≤ cfg.max_item_count := by
  cases toks with
  | nil =>
      intro acc op lim t lim' hrt hic h
      cases acc with
      | none => simp [buildToks] at h
      | some e =>
          simp only [buildToks] at h
          injection h with h'
          injection h' with h1 h2
          subst h2
          simp only [PToks.totalTimes, PToks.totalItems]
          omega
  | cons tk rest =>
      intro acc op lim t lim' hrt hic h
      cases tk with
      | op o =>
          simp only [buildToks] at h
          have hres := buildToks_counts cfg hA hB rest acc (some o) lim t lim'
            hrt hic h
          simpa only [PToks.totalTimes, PToks.totalItems] using hres
      | item itok =>
          simp only [buildToks] at h
          cases hbi : buildItem cfg lim itok with
          | err e => rw [hbi] at h; cases h
          | panicked => rw [hbi] at h; cases h
          | ok pr =>
              rw [hbi] at h
              dsimp only at h
              obtain ⟨hi1, hi2, hi3, hi4⟩ :=
                buildItem_counts cfg hA hB itok lim pr.1 pr.2 hrt hic
                  (by rw [hbi])
              cases acc with
              | none =>
                  obtain ⟨hr1, hr2, hr3, hr4⟩ :=
                    buildToks_counts cfg hA hB rest _ op pr.2 t lim' hi3 hi4 h
                  simp only [PToks.totalTimes, PToks.totalItems]
                  refine ⟨by omega, by omega, hr3, hr4⟩
              | some e =>
                  cases op with
                  | none => cases h
                  | some o =>
                      obtain ⟨hr1, hr2, hr3, hr4⟩ :=
                        buildToks_counts cfg hA hB rest _ none pr.2 t lim'
                          hi3 hi4 h
                      simp only [PToks.totalTimes, PToks.totalItems]
                      refine ⟨by omega, by omega, hr3, hr4⟩

/-- Counter accumulation through one item of the limit-threading
builder (see `buildToks_counts`). -/
theorem buildItem_counts (cfg : Config)
    (hA : cfg.max_item_count + 1 < U64MOD)
    (hB : 2 * cfg.max_roll_times < U64MOD) (it : PItemTok) :
    ∀ (lim : Limit) (item : PItem) (lim' : Limit),
      lim.rollTimes ≤ cfg.max_roll_times →
      lim.itemCount ≤ cfg.max_item_count →
      buildItem cfg lim it = Res.ok (item, lim') →
      lim'.rollTimes = lim.rollTimes + it.totalTimes
      ∧ lim'.itemCount = lim.itemCount + it.totalItems
      ∧ lim'.rollTimes ≤ cfg.max_roll_times
      ∧ lim'.itemCount ≤ cfg.max_item_count := by
  cases it with
  | number x =>
      intro lim item lim' hrt hic h
      simp only [buildItem] at h
      cases hc : Limit.checkNumberItem cfg x with
      | err e => rw [hc] at h; cases h
      | panicked => rw [hc] at h; cases h
      | ok u =>
          rw [hc] at h
          cases hinc : Limit.incItemCount cfg lim with
          | err e => rw [hinc] at h; cases h
          | panicked => rw [hinc] at h; cases h
          | ok lim1 =>
              rw [hinc] at h
              injection h with h'
              injection h' with h1 h2
              subst h2
              obtain ⟨ha, hb, hle⟩ := Limit.incItemCount_ok (by omega) hinc
              simp only [PItemTok.totalTimes, PItemTok.totalItems]
              omega
  | dice t s pp =>
      intro lim item lim' hrt hic h
      simp only [buildItem] at h
      cases hc : Limit.checkDice cfg t s with
      | err e => rw [hc] at h; cases h
      | panicked => rw [hc] at h; cases h
      | ok u =>
          rw [hc] at h
          cases hinc : Limit.incItemCount cfg lim with
          | err e => rw [hinc] at h; cases h
          | panicked => rw [hinc] at h; cases h
          | ok lim1 =>
              rw [hinc] at h
              dsimp only at h
              have htle : i64ToU64 t ≤ cfg.max_roll_times := by
                cases u
                exact Limit.checkDice_ok hc
              obtain ⟨h1a, h1b, hle1⟩ := Limit.incItemCount_ok (by omega) hinc
              cases hroll : Limit.incRollTimes cfg lim1 (i64ToU64 t) with
              | err e => rw [hroll] at h; cases h
              | panicked => rw [hroll] at h; cases h
              | ok lim2 =>
                  rw [hroll] at h
                  injection h with h'
                  injection h' with h1 h2
                  subst h2
                  obtain ⟨h2a, h2b, hle2⟩ :=
                    @Limit.incRollTimes_ok cfg lim1 lim2 (i64ToU64 t)
                      (by omega) hroll
                  simp only [PItemTok.totalTimes, PItemTok.totalItems]
                  omega
  | paren toks =>
      intro lim item lim' hrt hic h
      simp only [buildItem] at h
      cases hb : buildToks cfg toks none none lim with
      | err e => rw [hb] at h; cases h
      | panicked => rw [hb] at h; cases h
      | ok pr =>
          rw [hb] at h
          injection h with h'
          injection h' with h1 h2
          subst h2
          obtain ⟨hr1, hr2, hr3, hr4⟩ :=
            buildToks_counts cfg hA hB toks none none lim pr.1 pr.2 hrt hic
              (by rw [hb])
          simp only [PItemTok.totalTimes, PItemTok.totalItems]
          exact ⟨hr1, hr2, hr3, hr4⟩
end

/-- Claim C2: the compiler's two running counters accumulate over one
whole compilation pass — `inc_item_count` fails with `TooManyItems`
exactly when, checked strictly after the increment, the count exceeds
`max_item_count` (the limit value itself is an allowed count), the
roll-times counter fails with `TooManyRollTimes` once the running sum
exceeds `max_roll_times`, and over a whole build the tracker's counters
equal the totals over every item of the expression, nested
parenthesized sub-expressions included, since they share the same
tracker. -/
theorem c2_limit_accumulation (cfg : Config)
    (hA : cfg.max_item_count + 1 < U64MOD)
    (hB : 2 * cfg.max_roll_times < U64MOD) :
    (∀ l : Limit, l.itemCount + 1 < U64MOD →
        ((Limit.incItemCount cfg l
            = Res.err CompileError.ItemCountLimitExceeded)
          ↔ cfg.max_item_count < l.itemCount + 1))
    ∧ (∀ (l : Limit) (n : Nat), l.rollTimes + n < U64MOD →
        ((Limit.incRollTimes cfg l n
            = Res.err CompileError.DiceRollTimesLimitExceeded)
          ↔ cfg.max_roll_times < l.rollTimes + n))
    ∧ (∀ (toks : PToks) (t : PAst) (lim' : Limit),
        buildToks cfg toks none none Limit.new = Res.ok (t, lim') →
        lim'.rollTimes = toks.totalTimes
        ∧ lim'.itemCount = toks.totalItems
        ∧ toks.totalTimes ≤ cfg.max_roll_times
        ∧ toks.totalItems ≤ cfg.max_item_count) := by
  refine ⟨?_, ?_, ?_⟩
  · intro l hw
    unfold Limit.incItemCount
    dsimp only
    rw [Nat.mod_eq_of_lt hw]
    split_ifs with hgt <;> simp [hgt]
  · intro l n hw
    unfold Limit.incRollTimes
    dsimp only
    rw [Nat.mod_eq_of_lt hw]
    split_ifs with hgt <;> simp [hgt]
  · intro toks t lim' h
    obtain ⟨h1, h2, h3, h4⟩ :=
      buildToks_counts cfg hA hB toks none none Limit.new t lim'
        (Nat.zero_le _) (Nat.zero_le _) h
    exact ⟨by simpa [Limit.new] using h1, by simpa [Limit.new] using h2,
      by omega, by omega⟩

/-- Witness for C2: building `2d6+(3d6)` under the default configuration
succeeds and leaves the shared tracker at 2 items and 5 roll times, the
totals over the whole expression including the parenthesized part. -/
theorem c2_limit_accumulation_witness :
    buildToks Config.default pToksExample none none Limit.new
      = Res.ok (pAstExample, ⟨2, 5⟩)
    ∧ (5 : Nat) = PToks.totalTimes pToksExample
    ∧ (2 : Nat) = PToks.totalItems pToksExample
    ∧ PToks.totalTimes pToksExample ≤ Config.default.max_roll_times
    ∧ PToks.totalItems pToksExample ≤ Config.default.max_item_count := by
  have hb : buildToks Config.default pToksExample none none Limit.new
      = Res.ok (pAstExample, ⟨2, 5⟩) := by decide
  have h := (c2_limit_accumulation Config.default (by decide) (by decide)).2.2
    pToksExample pAstExample ⟨2, 5⟩ hb
  exact ⟨hb, h.1, h.2.1, h.2.2.1, h.2.2.2⟩

end Gurgle
